import Mathlib

/-!
Verification of the `edf_to_csv` converter (`src/main.rs`).

Modelling conventions, applied uniformly:

* Rust `f32` values and arithmetic are modelled as exact rational numbers
  (`ℚ`).  Rounding of `f32` operations is not modelled; every claim below is
  settled against this exact-arithmetic model.  The one place where the
  `f32` representation itself matters — the cast `as i16` in the interval
  computation — is modelled faithfully as truncation toward zero followed by
  saturation to the `i16` range, which is the Rust semantics of a
  float-to-integer `as` cast.
* The sequential `BufReader` byte stream is modelled as a `List Char`
  suffix: `take n` models `Read::take(n).read_to_string`, `drop n` models
  both consuming reads and `seek_relative n`.
* Rust `str::parse` for integers is modelled as `rustParseSigned` /
  `rustParseUnsigned` (optional sign, one or more ASCII digits, range
  check), and for `f32` as `rustParseFloatQ` (plain decimal forms, exact
  rational value; exponent/inf/nan forms are not modelled as no claim
  exercises them).  `str::trim` is modelled by `rustTrim`
  (`Char.isWhitespace` agrees with Rust on the ASCII whitespace that occurs
  in EDF headers).
* The external `datetime` crate: `Instant` and `Duration` are second +
  millisecond pairs; `Instant + Duration` adds componentwise without any
  carry (which is exactly why `increment_timestamp` in the source
  normalizes the millisecond field by hand).  `Duration::of_ms` and
  `Instant::at_ms` are plain constructors.  The ISO formatting of
  `LocalDateTime` and the `f32` `to_string` rendering are abstracted as
  universally quantified functions `fmt : Instant → String` and
  `showVal : ℚ → String`; the theorems that mention them hold for every
  such function, in particular for the real ones.
* A Rust panic (out-of-bounds `Vec` index) is modelled as `Option.none` at
  the pipeline level; a typed `EdfError` return is `Option.some` of an
  `Except` value.
-/

namespace EdfToCsv

/-! ### Modelling Rust string primitives -/

/-- `str::trim` on a character list: drop whitespace from the front, then
from the back. -/
def rustTrimList (l : List Char) : List Char :=
  (((l.dropWhile Char.isWhitespace).reverse.dropWhile Char.isWhitespace).reverse)

/-- `str::trim`. -/
def rustTrim (s : String) : String :=
  String.mk (rustTrimList s.data)

/-- Numeric value of an ASCII digit. -/
def digitVal (c : Char) : Nat := c.toNat - 48

/-- Value of a digit string, most significant first. -/
def digitsToNat (l : List Char) : Nat :=
  l.foldl (fun acc c => 10 * acc + digitVal c) 0

/-- One or more ASCII digits, as in Rust's integer `FromStr` after the sign
has been stripped; anything else is a `ParseIntError`. -/
def parseDigits (l : List Char) : Option Nat :=
  if l.isEmpty then none
  else if l.all Char.isDigit then some (digitsToNat l)
  else none

/-- Rust `str::parse` for an unsigned integer type with maximum value
`maxVal`: optional leading `+`, then digits, overflow rejected. -/
def rustParseUnsigned (maxVal : Nat) (s : String) : Option Nat :=
  match s.data with
  | '+' :: rest => (parseDigits rest).bind (fun n => if n ≤ maxVal then some n else none)
  | l => (parseDigits l).bind (fun n => if n ≤ maxVal then some n else none)

/-- Rust `str::parse` for a signed integer type with range `[lo, hi]`:
optional leading `+` or `-`, then digits, overflow rejected. -/
def rustParseSigned (lo hi : Int) (s : String) : Option Int :=
  match s.data with
  | '+' :: rest =>
      (parseDigits rest).bind (fun n => if lo ≤ (n : Int) ∧ (n : Int) ≤ hi then some (n : Int) else none)
  | '-' :: rest =>
      (parseDigits rest).bind (fun n => if lo ≤ -(n : Int) ∧ -(n : Int) ≤ hi then some (-(n : Int)) else none)
  | l =>
      (parseDigits l).bind (fun n => if lo ≤ (n : Int) ∧ (n : Int) ≤ hi then some (n : Int) else none)

/-- Unsigned decimal mantissa of a Rust float literal: `digits`,
`digits.digits`, `digits.` or `.digits`, valued as an exact rational. -/
def parseDecMantissa (l : List Char) : Option ℚ :=
  match l.span Char.isDigit with
  | (intPart, []) =>
      if intPart.isEmpty then none else some ((digitsToNat intPart : ℚ))
  | (intPart, '.' :: fracPart) =>
      if fracPart.all Char.isDigit && !(intPart.isEmpty && fracPart.isEmpty) then
        some ((digitsToNat intPart : ℚ) + (digitsToNat fracPart : ℚ) / ((10 : ℚ) ^ fracPart.length))
      else none
  | _ => none

/-- Rust `str::parse::<f32>` restricted to plain decimal forms, with the
value taken exactly (no `f32` rounding). -/
def rustParseFloatQ (s : String) : Option ℚ :=
  match s.data with
  | '+' :: rest => parseDecMantissa rest
  | '-' :: rest => (parseDecMantissa rest).map (fun q => -q)
  | l => parseDecMantissa l

/-! ### Calibration bounds and scaling (`Bounds`, `Bounds::scale`) -/

/-- `struct Bounds` from the source; the four `f32` fields are modelled as
exact rationals. -/
structure Bounds where
  digital_min : ℚ
  digital_max : ℚ
  physical_min : ℚ
  physical_max : ℚ
deriving DecidableEq, Repr

/-- `Bounds::scale`: the raw sample is an `i16`, modelled as an `Int` in
`[-32768, 32767]`; `i16::MIN = -32768` is the reserved sentinel. -/
def Bounds.scale (b : Bounds) (value : Int) : Option ℚ :=
  if value = -32768 then none
  else
    some ((((value : ℚ) - b.digital_min) * (b.physical_max - b.physical_min) /
      (b.digital_max - b.digital_min)) + b.physical_min)

/-- `struct Signal` from the source. -/
structure Signal where
  label : String
  dimension : String
  bounds : Bounds
  num_samples : Nat
deriving DecidableEq, Repr

instance : Inhabited Signal := ⟨⟨"", "", ⟨0, 0, 0, 0⟩, 0⟩⟩

/-- `enum EdfError` from the source (each variant carries the formatted
detail string). -/
inductive EdfError where
  | Csv (msg : String)
  | ParseFloat (msg : String)
  | ParseInt (msg : String)
  | Io (msg : String)
  | Datetime (msg : String)
  | MismatchedSignals (msg : String)
deriving DecidableEq, Repr

/-! ### Header field parsing (`get_start_date`, `get_start_time`,
`get_num_records`, `get_record_duration`, `get_num_signals`)

Each function below models the treatment of one numeric text field: what
string manipulation (if any) is applied before `str::parse`.  The date and
time fields of `get_start_date` / `get_start_time` are parsed as `i8`
directly from the 2-byte field with no trimming; the three count fields
are trimmed first. -/

/-- `get_start_date`: `day_string.parse::<i8>()` — no trim. -/
def parse_day_field (s : String) : Option Int := rustParseSigned (-128) 127 s

/-- `get_start_date`: `month_string.parse::<i8>()` — no trim. -/
def parse_month_field (s : String) : Option Int := rustParseSigned (-128) 127 s

/-- `get_start_date`: `year_string.parse::<i64>()` (then `2000 +`) — no trim. -/
def parse_year_field (s : String) : Option Int :=
  rustParseSigned (-9223372036854775808) 9223372036854775807 s

/-- `get_start_time`: `hour_string.parse::<i8>()` — no trim. -/
def parse_hour_field (s : String) : Option Int := rustParseSigned (-128) 127 s

/-- `get_start_time`: `minute_string.parse::<i8>()` — no trim. -/
def parse_minute_field (s : String) : Option Int := rustParseSigned (-128) 127 s

/-- `get_start_time`: `second_string.parse::<i8>()` — no trim. -/
def parse_second_field (s : String) : Option Int := rustParseSigned (-128) 127 s

/-- `get_num_records`: `num_records.trim().parse::<usize>()`. -/
def parse_num_records_field (s : String) : Option Nat :=
  rustParseUnsigned 18446744073709551615 (rustTrim s)

/-- `get_record_duration`: `record_duration.trim().parse::<usize>()`. -/
def parse_record_duration_field (s : String) : Option Nat :=
  rustParseUnsigned 18446744073709551615 (rustTrim s)

/-- `get_num_signals`: `num_signals.trim().parse::<usize>()`. -/
def parse_num_signals_field (s : String) : Option Nat :=
  rustParseUnsigned 18446744073709551615 (rustTrim s)

/-! ### Signal table decoding (`get_signals`) -/

/-- `header_signal_bytes` from the source: byte widths of the 10 field
slots of the signal header block. -/
def header_signal_bytes : List Nat := [16, 80, 8, 8, 8, 8, 8, 80, 8, 32]

/-- `skip_indices` from the source: slots consumed but discarded. -/
def skip_indices : List Nat := [1, 7, 9]

/-- Inner loop of `get_signals` for a captured slot of width `w`: for each
per-signal accumulator in turn, read `w` bytes, trim, and push the field. -/
def readSlot (w : Nat) : List (List String) → List Char → List (List String) × List Char
  | [], s => ([], s)
  | v :: vs, s =>
      let r := readSlot w vs (s.drop w)
      ((v ++ [rustTrim (String.mk (s.take w))]) :: r.1, r.2)

/-- Inner loop of `get_signals` for a skipped slot of width `w`: for each
per-signal accumulator in turn, `seek_relative w`. -/
def skipSlot (w : Nat) : List (List String) → List Char → List (List String) × List Char
  | [], s => ([], s)
  | v :: vs, s =>
      let r := skipSlot w vs (s.drop w)
      (v :: r.1, r.2)

/-- Outer loop of `get_signals` over the enumerated field slots. -/
def processSlots : List (Nat × Nat) → List (List String) → List Char → List (List String) × List Char
  | [], vec, s => (vec, s)
  | (i, w) :: rest, vec, s =>
      let r := if skip_indices.contains i then skipSlot w vec s else readSlot w vec s
      processSlots rest r.1 r.2

/-- The `signals_vec` accumulation phase of `get_signals`: one list of 7
trimmed field strings per signal, plus the advanced stream. -/
def get_signals_vec (num_signals : Nat) (s : List Char) : List (List String) × List Char :=
  processSlots header_signal_bytes.enum (List.replicate num_signals ([] : List String)) s

/-- The construction phase of `get_signals`: build one `Signal` from its 7
captured fields, with the parses in the source's evaluation order
(`s[6]` first, then the four bound fields in struct-literal order). -/
def signalOfFields (s : List String) : Except EdfError Signal := do
  let num_samples ← match rustParseUnsigned 18446744073709551615 (s.getD 6 "") with
    | some n => Except.ok n
    | none => Except.error (EdfError.ParseInt "invalid digit found in string")
  let physical_min ← match rustParseFloatQ (s.getD 2 "") with
    | some q => Except.ok q
    | none => Except.error (EdfError.ParseFloat "invalid float literal")
  let physical_max ← match rustParseFloatQ (s.getD 3 "") with
    | some q => Except.ok q
    | none => Except.error (EdfError.ParseFloat "invalid float literal")
  let digital_min ← match rustParseFloatQ (s.getD 4 "") with
    | some q => Except.ok q
    | none => Except.error (EdfError.ParseFloat "invalid float literal")
  let digital_max ← match rustParseFloatQ (s.getD 5 "") with
    | some q => Except.ok q
    | none => Except.error (EdfError.ParseFloat "invalid float literal")
  pure { label := s.getD 0 "", dimension := s.getD 1 "",
         bounds := { digital_min := digital_min, digital_max := digital_max,
                     physical_min := physical_min, physical_max := physical_max },
         num_samples := num_samples }

/-- `get_signals`: decode the signal table for `num_signals` channels from
the stream; returns the result together with the advanced stream. -/
def get_signals (num_signals : Nat) (s : List Char) : Except EdfError (List Signal) × List Char :=
  ((get_signals_vec num_signals s).1.mapM signalOfFields, (get_signals_vec num_signals s).2)

/-- Spec-side description (§4.2 of the spec): the field captured for
channel `j` at byte offset `off`, width `w`, trimmed. -/
def specFieldAt (s : List Char) (off w : Nat) : String :=
  rustTrim (String.mk ((s.drop off).take w))

/-- Spec-side description: the 7 captured fields of channel `j` out of `n`,
at the offsets forced by the field-major layout with slot widths
16, 80, 8, 8, 8, 8, 8, 80, 8, 32 and skipped slots 1, 7, 9. -/
def specChannelFields (n j : Nat) (s : List Char) : List String :=
  [ specFieldAt s (16 * j) 16,
    specFieldAt s (96 * n + 8 * j) 8,
    specFieldAt s (104 * n + 8 * j) 8,
    specFieldAt s (112 * n + 8 * j) 8,
    specFieldAt s (120 * n + 8 * j) 8,
    specFieldAt s (128 * n + 8 * j) 8,
    specFieldAt s (216 * n + 8 * j) 8 ]

/-- Spec-side description of the whole decoder: channel `j`'s record is
built from its 7 captured fields, for `j = 0, …, n-1` in declared order. -/
def get_signals_spec (n : Nat) (s : List Char) : Except EdfError (List Signal) :=
  ((List.range n).map (fun j => specChannelFields n j s)).mapM signalOfFields

/-- Total byte width of a list of enumerated slots (proof support). -/
def slotsWidth (slots : List (Nat × Nat)) : Nat :=
  (slots.map Prod.snd).sum

/-- The fields captured for channel `j` out of `n` while processing the
given slots against stream `s` (proof support: the closed form of what one
per-channel accumulator receives). -/
def slotFields (slots : List (Nat × Nat)) (n j : Nat) (s : List Char) : List String :=
  match slots with
  | [] => []
  | (i, w) :: rest =>
      if skip_indices.contains i then slotFields rest n j (s.drop (w * n))
      else rustTrim (String.mk ((s.drop (w * j)).take w)) :: slotFields rest n j (s.drop (w * n))

/-! ### Timestamps (`datetime` crate model, `increment_timestamp`) -/

/-- The `datetime` crate's `Instant`: seconds + milliseconds.  In the crate
the millisecond field is an `i16`; both fields are modelled as `Int`. -/
structure Instant where
  seconds : Int
  milliseconds : Int
deriving DecidableEq, Repr

/-- The `datetime` crate's `Duration`: seconds + milliseconds. -/
structure Duration where
  seconds : Int
  milliseconds : Int
deriving DecidableEq, Repr

/-- `Instant::at_ms`. -/
def Instant.at_ms (seconds milliseconds : Int) : Instant := ⟨seconds, milliseconds⟩

/-- `Duration::of_ms`. -/
def Duration.of_ms (seconds milliseconds : Int) : Duration := ⟨seconds, milliseconds⟩

/-- `Instant + Duration` in the `datetime` crate: componentwise addition,
with no carry from milliseconds into seconds. -/
def Instant.addDuration (t : Instant) (d : Duration) : Instant :=
  ⟨t.seconds + d.seconds, t.milliseconds + d.milliseconds⟩

/-- `increment_timestamp` from the source: add the interval, then if the
millisecond field reached 1000, carry whole seconds and keep the
remainder. -/
def increment_timestamp (timestamp : Instant) (interval : Duration) : Instant :=
  let t := timestamp.addDuration interval
  if t.milliseconds ≥ 1000 then
    Instant.at_ms (t.seconds + t.milliseconds / 1000) (t.milliseconds % 1000)
  else t

/-! ### Interval construction (`parse_edf`, lines 248–249) -/

/-- Truncation toward zero of a rational, the rounding used by a Rust
float-to-integer `as` cast. -/
def ratTowardZero (q : ℚ) : Int := q.num.tdiv q.den

/-- Saturation to the `i16` range, the clamping used by a Rust
float-to-integer `as` cast. -/
def i16_sat (n : Int) : Int := max (-32768) (min 32767 n)

/-- `interval_ms` from the source:
`(1000.0 * record_duration as f32 / num_samples as f32) as i16`, with the
`f32` arithmetic modelled exactly over `ℚ`. -/
def interval_ms (record_duration num_samples : Nat) : Int :=
  i16_sat (ratTowardZero ((1000 * (record_duration : ℚ)) / (num_samples : ℚ)))

/-- `sample_interval` from the source:
`Duration::of_ms((interval_ms / 1000) as i64, interval_ms % 1000)`. -/
def sample_interval (record_duration num_samples : Nat) : Duration :=
  Duration.of_ms (interval_ms record_duration num_samples / 1000)
    (interval_ms record_duration num_samples % 1000)

/-! ### Pipeline pieces (`parse_edf`) -/

/-- The `parse_edf` step after `get_signals` (lines 242–246): read
`signals[0].num_samples` — a panic (`none`) on an empty signal list — and
check every other signal against it, failing with `MismatchedSignals`
otherwise.  `some (Except.ok n)` means validation succeeded with the
common samples-per-record `n` and conversion proceeds. -/
def checkSignalsStep (file_path : String) (signals : List Signal) : Option (Except EdfError Nat) :=
  match signals.head? with
  | none => none
  | some s0 =>
      if (signals.drop 1).all (fun s => s.num_samples == s0.num_samples) then
        some (Except.ok s0.num_samples)
      else
        some (Except.error (EdfError.MismatchedSignals
          (file_path ++ ": Not all signals have the same number of samples per record!")))

/-- One output cell: `scale` then `to_string`, the empty string for a
missing value.  `showVal` abstracts the `f32` `to_string` rendering. -/
def renderValue (showVal : ℚ → String) (b : Bounds) (v : Int) : String :=
  match b.scale v with
  | some scaled => showVal scaled
  | none => ""

/-- One data row of the record loop: the formatted current instant, then
for each signal `j` the rendered value at flat offset
`i + j * num_samples`.  `fmt` abstracts the ISO formatting of
`LocalDateTime::from_instant`. -/
def buildRow (fmt : Instant → String) (showVal : ℚ → String) (signals : List Signal)
    (values : List Int) (num_samples i : Nat) (t : Instant) : List String :=
  fmt t :: (List.range signals.length).map
    (fun j => renderValue showVal (signals.getD j default).bounds (values.getD (i + j * num_samples) 0))

/-- The sample loop of `parse_edf` (lines 271–288), recursing on the number
of rows still to emit: build the row for sample index `i` from the current
instant, emit it, advance the sequencer, continue.  Returns the emitted
rows and the final sequencer instant. -/
def emitRowsAux (fmt : Instant → String) (showVal : ℚ → String) (signals : List Signal)
    (values : List Int) (num_samples : Nat) (interval : Duration) :
    Nat → Nat → Instant → List (List String) × Instant
  | _, 0, t => ([], t)
  | i, fuel + 1, t =>
      let row := buildRow fmt showVal signals values num_samples i t
      let r := emitRowsAux fmt showVal signals values num_samples interval (i + 1) fuel
        (increment_timestamp t interval)
      (row :: r.1, r.2)

/-- One record's inner loop: emit `num_samples` rows starting at sample
index 0 from instant `t0`. -/
def emitRecordRows (fmt : Instant → String) (showVal : ℚ → String) (signals : List Signal)
    (values : List Int) (num_samples : Nat) (interval : Duration) (t0 : Instant) :
    List (List String) × Instant :=
  emitRowsAux fmt showVal signals values num_samples interval 0 num_samples t0

/-- The header row of `parse_edf`: `"timestamp"` then each label. -/
def headerRow (signals : List Signal) : List String :=
  "timestamp" :: signals.map Signal.label

/-- The unit row of `parse_edf`: the literal format string then each
dimension. -/
def unitRow (signals : List Signal) : List String :=
  "YYYY-MM-DD hh:mm:ss" :: signals.map Signal.dimension

/-! ### Helper lemmas -/

lemma sample_interval_ms_bounds (record_duration num_samples : Nat) :
    0 ≤ (sample_interval record_duration num_samples).milliseconds
    ∧ (sample_interval record_duration num_samples).milliseconds < 1000 := by
  refine ⟨Int.emod_nonneg _ (by norm_num), Int.emod_lt_of_pos _ (by norm_num)⟩

lemma ratTowardZero_eq_floor (q : ℚ) (h : 0 ≤ q) : ratTowardZero q = ⌊q⌋ := by
  unfold ratTowardZero
  rw [Int.tdiv_eq_ediv (Rat.num_nonneg.mpr h) (Int.natCast_nonneg q.den)]
  conv_rhs => rw [← Rat.num_div_den q]
  rw [Rat.floor_intCast_div_natCast]

/-! ### Claim theorems -/

/-- Claim C1, counterexample: with `digital_min = -32768` (and
`digital_max = 32767 ≠ digital_min`), scaling the raw value equal to
`digital_min` returns "missing", not `physical_min`. -/
theorem scale_endpoint_sentinel_cex :
    (⟨-32768, 32767, 0, 200⟩ : Bounds).digital_max ≠ (⟨-32768, 32767, 0, 200⟩ : Bounds).digital_min
    ∧ (⟨-32768, 32767, 0, 200⟩ : Bounds).scale (-32768) = none
    ∧ (⟨-32768, 32767, 0, 200⟩ : Bounds).scale (-32768) ≠
        some (⟨-32768, 32767, 0, 200⟩ : Bounds).physical_min := by
  refine ⟨by norm_num, by simp [Bounds.scale], by simp [Bounds.scale]⟩

/-- Claim C1 (amended): for every `Bounds` with `digital_max ≠ digital_min`
and every raw value `r`, if `r` equals `digital_min` (resp. `digital_max`)
and `r` is not the sentinel `-32768`, then `scale r` is exactly
`physical_min` (resp. `physical_max`); when the raw value is the sentinel
(in particular when `digital_min = -32768`), `scale` returns "missing"
instead. -/
theorem scale_endpoint_identity (b : Bounds) (r : Int)
    (hne : b.digital_max ≠ b.digital_min) :
    ((r : ℚ) = b.digital_min → r ≠ -32768 → b.scale r = some b.physical_min)
    ∧ ((r : ℚ) = b.digital_max → r ≠ -32768 → b.scale r = some b.physical_max)
    ∧ (r = -32768 → b.scale r = none) := by
  refine ⟨?_, ?_, ?_⟩
  · intro hmin hs
    simp only [Bounds.scale, if_neg hs, hmin, sub_self, zero_mul, zero_div, zero_add]
  · intro hmax hs
    simp only [Bounds.scale, if_neg hs, hmax]
    rw [mul_div_cancel_left₀ _ (sub_ne_zero_of_ne hne), sub_add_cancel]
  · intro hs
    simp [Bounds.scale, hs]

/-- Witness for the amended C1 at concrete bounds `[0, 100] → [-50, 50]`. -/
theorem scale_endpoint_identity_witness :
    (⟨0, 100, -50, 50⟩ : Bounds).scale 0 = some (⟨0, 100, -50, 50⟩ : Bounds).physical_min
    ∧ (⟨0, 100, -50, 50⟩ : Bounds).scale 100 = some (⟨0, 100, -50, 50⟩ : Bounds).physical_max := by
  refine ⟨(scale_endpoint_identity ⟨0, 100, -50, 50⟩ 0 (by norm_num)).1 (by norm_num) (by decide),
    (scale_endpoint_identity ⟨0, 100, -50, 50⟩ 100 (by norm_num)).2.1 (by norm_num) (by decide)⟩

/-- Claim C2: for every raw signed 16-bit sample and every `Bounds`
(including `digital_max = digital_min`, whose division is unguarded),
`scale` returns "missing" iff the raw value is the sentinel `-32768`;
every other raw value yields a computed value, never an error. -/
theorem scale_missing_iff_sentinel (b : Bounds) (r : Int)
    (_hlo : -32768 ≤ r) (_hhi : r ≤ 32767) :
    (b.scale r = none ↔ r = -32768) ∧ (r ≠ -32768 → ∃ q, b.scale r = some q) := by
  by_cases h : r = -32768 <;> simp [Bounds.scale, h]

/-- Witness for C2 at degenerate bounds (`digital_max = digital_min = 5`)
and the non-sentinel raw value 7. -/
theorem scale_missing_iff_sentinel_witness :
    (-32768 ≤ (7 : Int)) ∧ ((7 : Int) ≤ 32767)
    ∧ (((⟨5, 5, 0, 1⟩ : Bounds).scale 7 = none ↔ (7 : Int) = -32768)
        ∧ ((7 : Int) ≠ -32768 → ∃ q, (⟨5, 5, 0, 1⟩ : Bounds).scale 7 = some q)) := by
  exact ⟨by decide, by decide, scale_missing_iff_sentinel ⟨5, 5, 0, 1⟩ 7 (by decide) (by decide)⟩

/-- Claim C3: for every non-empty decoded channel list, the validation step
fails with `MismatchedSignals` iff some channel's `num_samples` differs
from the first channel's; when all agree it succeeds and conversion
proceeds. -/
theorem mismatched_signals_iff (path : String) (s0 : Signal) (rest : List Signal) :
    ((∃ m, checkSignalsStep path (s0 :: rest) =
        some (Except.error (EdfError.MismatchedSignals m)))
      ↔ ∃ s ∈ s0 :: rest, s.num_samples ≠ s0.num_samples)
    ∧ ((∀ s ∈ s0 :: rest, s.num_samples = s0.num_samples)
      → checkSignalsStep path (s0 :: rest) = some (Except.ok s0.num_samples)) := by
  have hdrop : (s0 :: rest).drop 1 = rest := rfl
  have hallc : ((s0 :: rest).drop 1).all (fun s => s.num_samples == s0.num_samples) = true
      ↔ ∀ s ∈ rest, s.num_samples = s0.num_samples := by
    simp [hdrop, List.all_eq_true]
  have hmem : (∃ s ∈ s0 :: rest, s.num_samples ≠ s0.num_samples)
      ↔ ¬ ∀ s ∈ rest, s.num_samples = s0.num_samples := by
    constructor
    · rintro ⟨s, hs, hne⟩ hforall
      rcases List.mem_cons.mp hs with h | h
      · exact hne (by rw [h])
      · exact hne (hforall s h)
    · intro h
      push_neg at h
      obtain ⟨s, hs, hne⟩ := h
      exact ⟨s, List.mem_cons_of_mem _ hs, hne⟩
  by_cases hall : ∀ s ∈ rest, s.num_samples = s0.num_samples
  · constructor
    · rw [hmem]
      simp only [checkSignalsStep, List.head?_cons, if_pos (hallc.mpr hall)]
      exact iff_of_false (by rintro ⟨m, hm⟩; simp at hm) (not_not_intro hall)
    · intro _
      simp only [checkSignalsStep, List.head?_cons, if_pos (hallc.mpr hall)]
  · constructor
    · rw [hmem]
      have hfalse : ¬ ((s0 :: rest).drop 1).all (fun s => s.num_samples == s0.num_samples) = true := by
        rw [hallc]; exact hall
      simp only [checkSignalsStep, List.head?_cons, if_neg hfalse]
      simp [hall]
    · intro hcontra
      exact absurd (fun s hs => hcontra s (List.mem_cons_of_mem _ hs)) hall

/-- Witness for C3: a singleton channel list passes validation. -/
theorem mismatched_signals_iff_witness :
    checkSignalsStep "f.edf" [(default : Signal)] =
      some (Except.ok (default : Signal).num_samples) := by
  exact (mismatched_signals_iff "f.edf" default []).2 (by simp)

/-- Claim C10: on an empty decoded channel list the pipeline panics
(modelled as `none`) when reading the first channel's `num_samples`,
instead of returning a typed error; every typed-error (or success) return
presupposes a non-empty channel list. -/
theorem empty_signals_panic :
    (∀ path, checkSignalsStep path [] = none)
    ∧ (∀ path signals r, checkSignalsStep path signals = some r → signals ≠ []) := by
  refine ⟨fun path => rfl, fun path signals r h hemp => ?_⟩
  subst hemp
  simp [checkSignalsStep] at h

/-- Witness for C10: a concrete successful return implies non-emptiness. -/
theorem empty_signals_panic_witness : ([(default : Signal)] : List Signal) ≠ [] := by
  exact empty_signals_panic.2 "f.edf" [default] (Except.ok 0) rfl

/-! ### Claim C4: which header fields are trimmed -/

lemma ws_not_digit (c : Char) (h : c.isWhitespace = true) : c.isDigit = false := by
  simp only [Char.isWhitespace, Bool.or_eq_true, decide_eq_true_eq] at h
  rcases h with ((h | h) | h) | h <;> subst h <;> decide

lemma parseDigits_ws_none (l : List Char) (c : Char) (hc : c ∈ l)
    (hw : c.isWhitespace = true) : parseDigits l = none := by
  unfold parseDigits
  rw [if_neg, if_neg]
  · intro hall
    have := (List.all_eq_true.mp hall) c hc
    rw [ws_not_digit c hw] at this
    exact Bool.noConfusion this
  · cases l with
    | nil => cases hc
    | cons a t => simp

lemma rustParseSigned_ws_none (lo hi : Int) (s : String) (c : Char)
    (hc : c ∈ s.data) (hw : c.isWhitespace = true) : rustParseSigned lo hi s = none := by
  unfold rustParseSigned
  split
  · rename_i rest heq
    rw [heq] at hc
    rcases List.mem_cons.mp hc with h | h
    · subst h; exact absurd hw (by decide)
    · rw [parseDigits_ws_none rest c h hw]; rfl
  · rename_i rest heq
    rw [heq] at hc
    rcases List.mem_cons.mp hc with h | h
    · subst h; exact absurd hw (by decide)
    · rw [parseDigits_ws_none rest c h hw]; rfl
  · rw [parseDigits_ws_none s.data c hc hw]; rfl

lemma dropWhile_ws_cons_space (l : List Char) :
    (' ' :: l).dropWhile Char.isWhitespace = l.dropWhile Char.isWhitespace := by
  rw [List.dropWhile_cons, if_pos (by decide)]

lemma trimRight_append_space (l : List Char) :
    (((l ++ [' ']).reverse.dropWhile Char.isWhitespace).reverse) =
      ((l.reverse.dropWhile Char.isWhitespace).reverse) := by
  rw [List.reverse_append, List.reverse_singleton, List.singleton_append,
    dropWhile_ws_cons_space]

lemma rustTrimList_pad (l : List Char) :
    rustTrimList (' ' :: (l ++ [' '])) = rustTrimList l := by
  unfold rustTrimList
  rw [dropWhile_ws_cons_space]
  induction l with
  | nil => decide
  | cons a t ih =>
    by_cases ha : a.isWhitespace
    · rw [List.cons_append, List.dropWhile_cons, if_pos ha, List.dropWhile_cons, if_pos ha]
      exact ih
    · rw [List.cons_append, List.dropWhile_cons, if_neg (by simp [ha]),
        List.dropWhile_cons, if_neg (by simp [ha]), ← List.cons_append]
      exact trimRight_append_space (a :: t)

lemma rustTrim_pad (s : String) : rustTrim (" " ++ s ++ " ") = rustTrim s := by
  unfold rustTrim
  have hdata : (" " ++ s ++ " ").data = ' ' :: (s.data ++ [' ']) := by
    rw [String.data_append, String.data_append]
    rfl
  rw [hdata, rustTrimList_pad]

/-- Claim C4, counterexample: the day field of `get_start_date` is parsed
without trimming, so the space-padded valid number `" 5"` fails with a
`ParseError`, while the same content succeeds for the (trimmed) record
count field. -/
theorem date_field_trim_cex :
    parse_day_field " 5" = none ∧ parse_num_records_field " 5" = some 5 := by
  exact ⟨by decide, by decide⟩

/-- Claim C4 (amended): trimming precedes parsing only for the record
count, record duration and channel count fields — space-padding those
fields never changes the parse result — while the six date/time fields
(day, month, year, hour, minute, second) are parsed untrimmed, so any
whitespace in them fails with a `ParseError`. -/
theorem numeric_field_trimming (s : String) :
    (parse_num_records_field (" " ++ s ++ " ") = parse_num_records_field s
      ∧ parse_record_duration_field (" " ++ s ++ " ") = parse_record_duration_field s
      ∧ parse_num_signals_field (" " ++ s ++ " ") = parse_num_signals_field s)
    ∧ ((∃ c ∈ s.data, c.isWhitespace = true) →
        parse_day_field s = none ∧ parse_month_field s = none
        ∧ parse_year_field s = none ∧ parse_hour_field s = none
        ∧ parse_minute_field s = none ∧ parse_second_field s = none) := by
  constructor
  · refine ⟨?_, ?_, ?_⟩ <;>
      simp only [parse_num_records_field, parse_record_duration_field,
        parse_num_signals_field, rustTrim_pad]
  · rintro ⟨c, hc, hw⟩
    exact ⟨rustParseSigned_ws_none _ _ s c hc hw, rustParseSigned_ws_none _ _ s c hc hw,
      rustParseSigned_ws_none _ _ s c hc hw, rustParseSigned_ws_none _ _ s c hc hw,
      rustParseSigned_ws_none _ _ s c hc hw, rustParseSigned_ws_none _ _ s c hc hw⟩

/-- Witness for the amended C4 at concrete fields `"12"` and `" 3"`. -/
theorem numeric_field_trimming_witness :
    parse_num_records_field (" " ++ "12" ++ " ") = parse_num_records_field "12"
    ∧ parse_day_field " 3" = none := by
  exact ⟨(numeric_field_trimming "12").1.1,
    ((numeric_field_trimming " 3").2 ⟨' ', by decide, by decide⟩).1⟩

/-! ### Claim C5: interval construction -/

/-- Claim C5: for every `record_duration` and positive `num_samples`, the
sequencer interval is built from `1000 × record_duration / num_samples`
total milliseconds truncated through a signed 16-bit intermediate
(`⌊·⌋` coincides with truncation toward zero here since the value is
nonnegative, and the `i16` cast saturates), then split as
`seconds = interval_ms / 1000` and `milliseconds = interval_ms % 1000`. -/
theorem interval_construction (record_duration num_samples : Nat)
    (hpos : 0 < num_samples) :
    (sample_interval record_duration num_samples).seconds
        = interval_ms record_duration num_samples / 1000
    ∧ (sample_interval record_duration num_samples).milliseconds
        = interval_ms record_duration num_samples % 1000
    ∧ interval_ms record_duration num_samples
        = i16_sat ⌊(1000 * (record_duration : ℚ)) / (num_samples : ℚ)⌋
    ∧ 1000 * (sample_interval record_duration num_samples).seconds
        + (sample_interval record_duration num_samples).milliseconds
        = interval_ms record_duration num_samples
    ∧ 0 ≤ (sample_interval record_duration num_samples).milliseconds
    ∧ (sample_interval record_duration num_samples).milliseconds < 1000 := by
  refine ⟨rfl, rfl, ?_, Int.ediv_add_emod _ 1000,
    (sample_interval_ms_bounds record_duration num_samples).1,
    (sample_interval_ms_bounds record_duration num_samples).2⟩
  unfold interval_ms
  rw [ratTowardZero_eq_floor]
  exact div_nonneg (by positivity) (by positivity)

/-- Witness for C5 at one record lasting 1 second with 4 samples. -/
theorem interval_construction_witness :
    0 < 4 ∧
    ((sample_interval 1 4).seconds = interval_ms 1 4 / 1000
    ∧ (sample_interval 1 4).milliseconds = interval_ms 1 4 % 1000
    ∧ interval_ms 1 4 = i16_sat ⌊(1000 * ((1 : Nat) : ℚ)) / (((4 : Nat)) : ℚ)⌋
    ∧ 1000 * (sample_interval 1 4).seconds + (sample_interval 1 4).milliseconds
        = interval_ms 1 4
    ∧ 0 ≤ (sample_interval 1 4).milliseconds
    ∧ (sample_interval 1 4).milliseconds < 1000) := by
  exact ⟨by decide, interval_construction 1 4 (by decide)⟩

/-! ### Claim C6: advance preserves the millisecond invariant -/

/-- Claim C6: for every instant with milliseconds-of-second in `[0, 1000)`
and every interval with nonnegative milliseconds (every interval the
program constructs — see `sample_interval_ms_bounds` — satisfies this),
the advance operation yields an instant with milliseconds again in
`[0, 1000)`, so the invariant is preserved by every advance. -/
theorem advance_preserves_ms_invariant (t : Instant) (d : Duration)
    (h1 : 0 ≤ t.milliseconds) (h2 : t.milliseconds < 1000)
    (h3 : 0 ≤ d.milliseconds) :
    0 ≤ (increment_timestamp t d).milliseconds
    ∧ (increment_timestamp t d).milliseconds < 1000 := by
  simp only [increment_timestamp, Instant.addDuration, Instant.at_ms]
  split
  · constructor
    · exact Int.emod_nonneg _ (by norm_num)
    · exact Int.emod_lt_of_pos _ (by norm_num)
  · rename_i hlt
    simp only [ge_iff_le, not_le] at hlt
    dsimp only at hlt ⊢
    exact ⟨by omega, by omega⟩

/-- Witness for C6 crossing the 1000 ms boundary. -/
theorem advance_preserves_ms_invariant_witness :
    0 ≤ (increment_timestamp ⟨0, 500⟩ ⟨0, 700⟩).milliseconds
    ∧ (increment_timestamp ⟨0, 500⟩ ⟨0, 700⟩).milliseconds < 1000 := by
  exact advance_preserves_ms_invariant ⟨0, 500⟩ ⟨0, 700⟩ (by decide) (by decide) (by decide)

/-! ### Claim C8: header and unit rows -/

/-- Claim C8: for every decoded channel list of length `N`, the first
emitted row is exactly `["timestamp", label_1, …, label_N]` and the second
exactly `["YYYY-MM-DD hh:mm:ss", unit_1, …, unit_N]`, with labels and
units in declared channel order, regardless of `N`. -/
theorem header_and_unit_rows (signals : List Signal) :
    (headerRow signals).length = signals.length + 1
    ∧ (headerRow signals)[0]? = some "timestamp"
    ∧ (∀ j, j < signals.length →
        (headerRow signals)[j + 1]? = (signals[j]?).map Signal.label)
    ∧ (unitRow signals).length = signals.length + 1
    ∧ (unitRow signals)[0]? = some "YYYY-MM-DD hh:mm:ss"
    ∧ (∀ j, j < signals.length →
        (unitRow signals)[j + 1]? = (signals[j]?).map Signal.dimension) := by
  refine ⟨by simp [headerRow], by simp [headerRow], ?_, by simp [unitRow],
    by simp [unitRow], ?_⟩
  · intro j _
    simp [headerRow, List.getElem?_map]
  · intro j _
    simp [unitRow, List.getElem?_map]

/-- Witness for C8 on a singleton channel list, at position 1. -/
theorem header_and_unit_rows_witness :
    0 < ([(default : Signal)] : List Signal).length
    ∧ (headerRow [(default : Signal)])[0 + 1]? =
        (([(default : Signal)] : List Signal)[0]?).map Signal.label := by
  exact ⟨by decide, (header_and_unit_rows [default]).2.2.1 0 (by decide)⟩

/-! ### Claim C7: data row structure and sequencer advancement -/

lemma emitRowsAux_char (fmt : Instant → String) (showVal : ℚ → String)
    (signals : List Signal) (values : List Int) (ns : Nat) (d : Duration) :
    ∀ (fuel i : Nat) (t : Instant),
      (emitRowsAux fmt showVal signals values ns d i fuel t).1.length = fuel
      ∧ (emitRowsAux fmt showVal signals values ns d i fuel t).2 =
          (fun u => increment_timestamp u d)^[fuel] t
      ∧ ∀ k, k < fuel →
          (emitRowsAux fmt showVal signals values ns d i fuel t).1[k]? =
            some (buildRow fmt showVal signals values ns (i + k)
              ((fun u => increment_timestamp u d)^[k] t)) := by
  intro fuel
  induction fuel with
  | zero =>
    intro i t
    exact ⟨rfl, rfl, fun k hk => absurd hk (Nat.not_lt_zero k)⟩
  | succ n ih =>
    intro i t
    obtain ⟨ihlen, ihsnd, ihget⟩ := ih (i + 1) (increment_timestamp t d)
    have hunfold : emitRowsAux fmt showVal signals values ns d i (n + 1) t =
        (buildRow fmt showVal signals values ns i t ::
          (emitRowsAux fmt showVal signals values ns d (i + 1) n (increment_timestamp t d)).1,
         (emitRowsAux fmt showVal signals values ns d (i + 1) n (increment_timestamp t d)).2) :=
      rfl
    refine ⟨?_, ?_, ?_⟩
    · rw [hunfold]
      simpa using ihlen
    · rw [hunfold]
      dsimp only
      rw [ihsnd, Function.iterate_succ_apply]
    · intro k hk
      match k with
      | 0 =>
        rw [hunfold]
        simp only [List.getElem?_cons_zero, Function.iterate_zero_apply, Nat.add_zero]
      | k + 1 =>
        rw [hunfold]
        simp only [List.getElem?_cons_succ]
        rw [ihget k (Nat.lt_of_succ_lt_succ hk), Function.iterate_succ_apply]
        have harith : i + 1 + k = i + (k + 1) := by omega
        rw [harith]

/-- Claim C7: for every record (equivalently, every starting instant `t0`
of a record's inner loop) and every sample index `i < num_samples`, the
emitted data row's first field is the formatted pre-advance instant (the
sequencer having been advanced exactly `i` times before row `i`, i.e. once
per row, after the row is built), and its `j`-th value field renders the
scaled flat raw buffer element at offset `i + j * num_samples`
(signal-major), the empty string standing for "missing".  Exactly
`num_samples` rows are emitted and the sequencer ends advanced exactly
`num_samples` times. -/
theorem record_row_structure (fmt : Instant → String) (showVal : ℚ → String)
    (signals : List Signal) (values : List Int) (num_samples : Nat)
    (interval : Duration) (t0 : Instant) :
    (emitRecordRows fmt showVal signals values num_samples interval t0).1.length = num_samples
    ∧ (emitRecordRows fmt showVal signals values num_samples interval t0).2 =
        (fun u => increment_timestamp u interval)^[num_samples] t0
    ∧ ∀ i, i < num_samples →
        (emitRecordRows fmt showVal signals values num_samples interval t0).1[i]? =
          some (fmt ((fun u => increment_timestamp u interval)^[i] t0) ::
            (List.range signals.length).map (fun j =>
              renderValue showVal (signals.getD j default).bounds
                (values.getD (i + j * num_samples) 0))) := by
  obtain ⟨hlen, hsnd, hget⟩ :=
    emitRowsAux_char fmt showVal signals values num_samples interval num_samples 0 t0
  refine ⟨hlen, hsnd, fun i hi => ?_⟩
  show (emitRowsAux fmt showVal signals values num_samples interval 0 num_samples t0).1[i]? = _
  rw [hget i hi]
  simp [buildRow]

/-- Witness for C7: one channel, three samples per record, row 1 uses the
once-advanced instant and the flat offsets 1 + j·3. -/
theorem record_row_structure_witness :
    1 < 3
    ∧ (emitRecordRows (fun t => toString t.milliseconds) (fun _ => "v")
        [(default : Signal)] [10, 20, -32768] 3 ⟨0, 333⟩ ⟨0, 0⟩).1[1]? =
      some ((fun t => toString t.milliseconds)
          ((fun u => increment_timestamp u ⟨0, 333⟩)^[1] ⟨0, 0⟩) ::
        (List.range ([(default : Signal)] : List Signal).length).map (fun j =>
          renderValue (fun _ => "v") (([(default : Signal)] : List Signal).getD j default).bounds
            (([10, 20, -32768] : List Int).getD (1 + j * 3) 0))) := by
  exact ⟨by decide,
    (record_row_structure (fun t => toString t.milliseconds) (fun _ => "v")
      [default] [10, 20, -32768] 3 ⟨0, 333⟩ ⟨0, 0⟩).2.2 1 (by decide)⟩

/-! ### Claim C9: field-major signal table decoding -/

lemma readSlot_fst_length (w : Nat) (vec : List (List String)) (s : List Char) :
    (readSlot w vec s).1.length = vec.length := by
  induction vec generalizing s with
  | nil => rfl
  | cons v vs ih => simp [readSlot, ih]

lemma readSlot_snd (w : Nat) (vec : List (List String)) (s : List Char) :
    (readSlot w vec s).2 = s.drop (w * vec.length) := by
  induction vec generalizing s with
  | nil => simp [readSlot]
  | cons v vs ih =>
    show (readSlot w vs (s.drop w)).2 = _
    rw [ih, List.drop_drop, List.length_cons]
    congr 1
    ring

lemma readSlot_fst_get (w : Nat) (vec : List (List String)) (s : List Char) (k : Nat) :
    (readSlot w vec s).1[k]? = (vec[k]?).map
      (fun v => v ++ [rustTrim (String.mk ((s.drop (w * k)).take w))]) := by
  induction vec generalizing s k with
  | nil => simp [readSlot]
  | cons v vs ih =>
    match k with
    | 0 =>
      show ((v ++ [rustTrim (String.mk (s.take w))]) :: (readSlot w vs (s.drop w)).1)[0]? = _
      simp
    | k + 1 =>
      show ((v ++ [rustTrim (String.mk (s.take w))]) :: (readSlot w vs (s.drop w)).1)[k + 1]? = _
      rw [List.getElem?_cons_succ, ih, List.getElem?_cons_succ, List.drop_drop]
      have harith : w + w * k = w * (k + 1) := by ring
      rw [harith]

lemma skipSlot_eq (w : Nat) (vec : List (List String)) (s : List Char) :
    skipSlot w vec s = (vec, s.drop (w * vec.length)) := by
  induction vec generalizing s with
  | nil => simp [skipSlot]
  | cons v vs ih =>
    show (v :: (skipSlot w vs (s.drop w)).1, (skipSlot w vs (s.drop w)).2) = _
    rw [ih, List.drop_drop, List.length_cons]
    have harith : w + w * vs.length = w * (vs.length + 1) := by ring
    rw [harith]

lemma processSlots_char (slots : List (Nat × Nat)) :
    ∀ (vec : List (List String)) (s : List Char),
      (processSlots slots vec s).2 = s.drop (slotsWidth slots * vec.length)
      ∧ ∀ k, (processSlots slots vec s).1[k]? =
          (vec[k]?).map (fun v => v ++ slotFields slots vec.length k s) := by
  induction slots with
  | nil =>
    intro vec s
    refine ⟨by simp [processSlots, slotsWidth], fun k => ?_⟩
    show vec[k]? = _
    rw [show slotFields [] vec.length k s = [] from rfl]
    cases vec[k]? <;> simp
  | cons hd rest ih =>
    obtain ⟨i, w⟩ := hd
    intro vec s
    by_cases hskip : skip_indices.contains i
    · have hstep : processSlots ((i, w) :: rest) vec s =
          processSlots rest vec (s.drop (w * vec.length)) := by
        simp only [processSlots, hskip, if_true, skipSlot_eq]
      obtain ⟨ihsnd, ihget⟩ := ih vec (s.drop (w * vec.length))
      have hwidth : slotsWidth ((i, w) :: rest) = w + slotsWidth rest := by
        simp [slotsWidth]
      refine ⟨?_, fun k => ?_⟩
      · rw [hstep, ihsnd, List.drop_drop, hwidth]
        congr 1
        ring
      · rw [hstep, ihget k]
        have hsf : slotFields ((i, w) :: rest) vec.length k s =
            slotFields rest vec.length k (s.drop (w * vec.length)) := by
          rw [slotFields, if_pos hskip]
        rw [hsf]
    · have hskip' : skip_indices.contains i = false := by
        simpa using hskip
      have hstep : processSlots ((i, w) :: rest) vec s =
          processSlots rest (readSlot w vec s).1 (readSlot w vec s).2 := by
        simp only [processSlots, hskip', Bool.false_eq_true, if_false]
      obtain ⟨ihsnd, ihget⟩ := ih (readSlot w vec s).1 (readSlot w vec s).2
      have hwidth : slotsWidth ((i, w) :: rest) = w + slotsWidth rest := by
        simp [slotsWidth]
      refine ⟨?_, fun k => ?_⟩
      · rw [hstep, ihsnd, readSlot_fst_length, readSlot_snd, List.drop_drop, hwidth]
        congr 1
        ring
      · rw [hstep, ihget k, readSlot_fst_length, readSlot_snd, readSlot_fst_get,
          Option.map_map]
        have hsf : slotFields ((i, w) :: rest) vec.length k s =
            rustTrim (String.mk ((s.drop (w * k)).take w)) ::
              slotFields rest vec.length k (s.drop (w * vec.length)) := by
          rw [slotFields, if_neg hskip]
        rw [hsf]
        cases vec[k]? with
        | none => rfl
        | some v => simp [Function.comp, List.append_assoc]

lemma enum_header_signal_bytes : header_signal_bytes.enum =
    [(0, 16), (1, 80), (2, 8), (3, 8), (4, 8), (5, 8), (6, 8), (7, 80), (8, 8), (9, 32)] := by
  rfl

lemma slotFields_concrete (n k : Nat) (s : List Char) :
    slotFields header_signal_bytes.enum n k s = specChannelFields n k s := by
  rw [enum_header_signal_bytes]
  simp only [slotFields, skip_indices, List.contains_cons, List.contains_nil,
    beq_iff_eq, Bool.or_eq_true, decide_eq_true_eq]
  norm_num
  simp only [List.drop_drop, specChannelFields, specFieldAt]
  ring_nf

theorem signal_table_decoding_aux (n : Nat) (s : List Char) :
    (get_signals_vec n s).2 = s.drop (256 * n)
    ∧ ∀ k, (get_signals_vec n s).1[k]? =
        if k < n then some (specChannelFields n k s) else none := by
  obtain ⟨hsnd, hget⟩ := processSlots_char header_signal_bytes.enum (List.replicate n []) s
  have hw : slotsWidth header_signal_bytes.enum = 256 := by rfl
  constructor
  · show (processSlots header_signal_bytes.enum (List.replicate n []) s).2 = _
    rw [hsnd, hw, List.length_replicate]
  · intro k
    show (processSlots header_signal_bytes.enum (List.replicate n []) s).1[k]? = _
    rw [hget k, List.getElem?_replicate, List.length_replicate]
    by_cases hk : k < n
    · rw [if_pos hk, if_pos hk]
      simp [slotFields_concrete]
    · rw [if_neg hk, if_neg hk]
      rfl

/-- Claim C9: for every channel count `n` and every stream, the signal
table decoder — which consumes the metadata block field-major over the 10
slots of widths 16, 80, 8, 8, 8, 8, 8, 80, 8, 32, skipping slots 1, 7
and 9 — produces exactly the channels described by the offset arithmetic
of that layout: channel `j`'s label, unit, physical min/max, digital
min/max and samples-per-record come from the seven captured slots in that
order, each trimmed before parsing, and the stream is advanced by exactly
`256 × n` bytes. -/
theorem signal_table_decoding (n : Nat) (s : List Char) :
    get_signals n s = (get_signals_spec n s, s.drop (256 * n)) := by
  obtain ⟨hsnd, hget⟩ := signal_table_decoding_aux n s
  have hfst : (get_signals_vec n s).1 =
      (List.range n).map (fun j => specChannelFields n j s) := by
    apply List.ext_getElem?
    intro k
    rw [hget k, List.getElem?_map]
    by_cases hk : k < n
    · rw [if_pos hk, List.getElem?_range hk]
      rfl
    · rw [if_neg hk, List.getElem?_eq_none (by simpa using Nat.le_of_not_lt hk)]
      rfl
  show ((get_signals_vec n s).1.mapM signalOfFields, (get_signals_vec n s).2) = _
  rw [hfst, hsnd]
  rfl

end EdfToCsv
